import Mathlib

/-!
Verification development for the webex-messaging MCP server core:
the paginated message-listing engine (list-messages.js), the token
lifecycle manager (lib/keychain/token-manager.js) and the auth facade
(lib/webex-config.js), shallowly embedded in Lean.

Timestamps are modelled as `Int` milliseconds.  The HTTP transport is
modelled as a total function from the pagination cursor and the `max`
query parameter to the batch of messages the upstream API returns for
that request (the other query filters — roomId, parentId,
mentionedPeople, before — are fixed for the whole call, so the
transport function is taken already closed over them).  JavaScript
`Date` parsing is modelled as an abstract `parseDate : String → Option Int`
(`none` encodes an Invalid Date, i.e. `isNaN(date.getTime())`).
-/

namespace WebexMCP

/-- A Webex message as the engine sees it: the seven fields the code
interprets or copies, plus an opaque remainder standing for every other
upstream field (`created` is a parsed timestamp). -/
structure Msg where
  id : String
  personEmail : String
  personId : String
  created : Int
  text : String
  parentId : String
  roomType : String
  extra : List (String × String)
deriving DecidableEq, Repr

/-- The summarized message shape produced by `summarizeMessage` in
list-messages.js: exactly seven fields, no opaque remainder. -/
structure SummaryMsg where
  id : String
  personEmail : String
  personId : String
  created : Int
  text : String
  parentId : String
  roomType : String
deriving DecidableEq, Repr

/-- Embedding of `summarizeMessage` (list-messages.js lines 33-41). -/
def summarizeMessage (m : Msg) : SummaryMsg :=
  { id := m.id
    personEmail := m.personEmail
    personId := m.personId
    created := m.created
    text := m.text
    parentId := m.parentId
    roomType := m.roomType }

/-- An item of the returned `items` array: either a full upstream
message (summarize = false) or a summarized one (summarize = true). -/
inductive Item
  | full (m : Msg)
  | summary (s : SummaryMsg)
deriving DecidableEq, Repr

/-- The record returned by the `after` path of `executeFunction`
(list-messages.js lines 133-138): `{ items, count, filtered: true,
afterFilter: after }`.  Note the code has no `truncatedByMax` field. -/
structure FilteredResult where
  items : List Item
  count : Nat
  filtered : Bool
  afterFilter : String
deriving DecidableEq, Repr

/-- The overall result of `executeFunction`: the raw response of the
single-fetch path (its `items`, with any other response fields out of
scope), the filtered-path record, or the `{error, details}` object
built by the catch block. -/
inductive ExecResult
  | plain (items : List Item)
  | filtered (r : FilteredResult)
  | err (message : String) (details : String)
deriving DecidableEq, Repr

/-- Constant `batchSize` of list-messages.js (line 81). -/
def batchSize : Nat := 100

/-- Safety cap `maxIterations` of list-messages.js (line 82). -/
def maxIterations : Nat := 20

/-- Default of the `max` argument (line 57). -/
def defaultMax : Nat := 50

/-- Default of the `summarize` argument (line 57). -/
def defaultSummarize : Bool := true

/-- The in-range test of the scan loop: `new Date(msg.created) >= afterDate`. -/
def inRange (afterT : Int) (m : Msg) : Bool :=
  decide (afterT ≤ m.created)

/-- Map a collected message list to the returned items, mirroring
`summarize ? list.map(summarizeMessage) : list`. -/
def itemize (summarize : Bool) (l : List Msg) : List Item :=
  if summarize then l.map (fun m => Item.summary (summarizeMessage m))
  else l.map Item.full

/-- The message of the error thrown for an unparsable `after`
(line 76; quotes around after dropped, text otherwise as in source). -/
def invalidAfterMessage (a : String) : String :=
  "Invalid after date format: " ++ a ++ ". Use ISO 8601 format (e.g., 2024-01-27T18:00:00Z)."

/-- Stand-in for `error.stack`, whose contents are runtime-dependent. -/
def errorStack : String := "Error: stack trace"

/-- Embedding of the pagination loop of `executeFunction`
(list-messages.js lines 85-128).  `fetchBatch c n` is the upstream
response for cursor `c` (the `beforeMessage` parameter; `none` starts
at the newest message) and query parameter `max = n`.  The loop also
records, in order, the cursor of every batch it fetched, so theorems
can speak about the number and contents of the network calls.  The
fuel argument plays the role of `maxIterations - iterations`. -/
def collectLoop (fetchBatch : Option String → Nat → List Msg) (afterT : Int) (maxArg : Nat) :
    Nat → Option String → List Msg → List (Option String) →
    List Msg × List (Option String)
  | 0, _, acc, fetches => (acc, fetches)
  | fuel + 1, cursor, acc, fetches =>
    let batch := fetchBatch cursor batchSize
    let fetches₁ := fetches ++ [cursor]
    if batch.isEmpty then (acc, fetches₁)
    else
      let scanned := batch.takeWhile (inRange afterT)
      let acc₁ := acc ++ scanned
      if scanned.length < batch.length then
        (acc₁, fetches₁)
      else if maxArg ≠ 0 ∧ maxArg ≤ acc₁.length then
        (acc₁.take maxArg, fetches₁)
      else
        let cursor₁ := match batch.getLast? with
          | some m => some m.id
          | none => cursor
        if batch.length < batchSize then (acc₁, fetches₁)
        else collectLoop fetchBatch afterT maxArg fuel cursor₁ acc₁ fetches₁

/-- Embedding of `executeFunction` (list-messages.js lines 57-146),
returning the result together with the ordered list of cursors of the
batches fetched (so a theorem can count network calls).  JavaScript
truthiness of `after` is kept: an absent or empty `after` takes the
single-fetch path; a present one is parsed, an unparsable value yields
the `{error, details}` object of the catch block with no fetch. -/
def executeFunction (fetchBatch : Option String → Nat → List Msg)
    (parseDate : String → Option Int)
    (beforeMessage after : Option String) (maxArg : Nat) (summarize : Bool) :
    ExecResult × List (Option String) :=
  let afterVal : Option String := match after with
    | none => none
    | some a => if a = "" then none else some a
  match afterVal with
  | none =>
    (ExecResult.plain (itemize summarize (fetchBatch beforeMessage maxArg)), [beforeMessage])
  | some a =>
    match parseDate a with
    | none => (ExecResult.err (invalidAfterMessage a) errorStack, [])
    | some afterT =>
      let r := collectLoop fetchBatch afterT maxArg maxIterations beforeMessage [] []
      let limited := if maxArg ≠ 0 then r.1.take maxArg else r.1
      (ExecResult.filtered
        { items := itemize summarize limited
          count := limited.length
          filtered := true
          afterFilter := a }, r.2)

/-- Concatenation, in fetch order, of the batches the loop received for
the recorded cursors. -/
def fetchedBatches (fetchBatch : Option String → Nat → List Msg)
    (cs : List (Option String)) : List Msg :=
  (cs.map (fun c => fetchBatch c batchSize)).flatten

namespace TokenManager

/-- A `{token, expiresAt}` pair as produced by the browser fetcher and
persisted in the Keychain (token-manager.js data model). -/
structure TokenRecord where
  token : String
  expiresAt : Int
deriving DecidableEq, Repr

/-- The three kinds of `setTimeout` callback token-manager.js installs:
the immediate-refresh timer (line 104), the normal scheduled-refresh
timer (line 117, carrying its `msUntilRefresh` delay) and the
retry-after-failure timer (line 124). -/
inductive TimerKind
  | immediate
  | scheduled (msUntilRefresh : Int)
  | retry
deriving DecidableEq, Repr

/-- The millisecond delay each timer kind is installed with
(1000, `msUntilRefresh`, and 5 minutes respectively). -/
def timerDelay : TimerKind → Int
  | TimerKind.immediate => 1000
  | TimerKind.scheduled d => d
  | TimerKind.retry => 5 * 60 * 1000

/-- Value of `REFRESH_BEFORE_EXPIRY_MINUTES * 60 * 1000` (token-manager.js line 10). -/
def refreshBeforeExpiryMs : Int := 30 * 60 * 1000

/-- The module state of token-manager.js plus its environment:
`cached` is the `_cachedToken`/`_tokenExpiresAt` pair (all code paths
set or clear the two variables together), `stored` the Keychain
content, `activeTimers` the live `setTimeout` handles of the runtime
(handle, kind), `refreshTimeoutVar` the `_refreshTimeout` variable,
`callbackSet` whether `_onTokenRefreshed` is set, and `notified` the
tokens the callback has been invoked with, in order. -/
structure TMState where
  cached : Option TokenRecord
  stored : Option TokenRecord
  activeTimers : List (Nat × TimerKind)
  refreshTimeoutVar : Option Nat
  nextHandle : Nat
  callbackSet : Bool
  notified : List String
deriving DecidableEq, Repr

/-- Operation `setTimeout`: installs a live timer with a fresh handle. -/
def setTimeoutOp (k : TimerKind) (st : TMState) : Nat × TMState :=
  (st.nextHandle,
   { st with
      activeTimers := st.activeTimers ++ [(st.nextHandle, k)]
      nextHandle := st.nextHandle + 1 })

/-- Operation `clearTimeout`: cancels the timer with the given handle (a no-op
if it is not live). -/
def clearTimeoutOp (h : Nat) (st : TMState) : TMState :=
  { st with activeTimers := st.activeTimers.filter (fun t => t.1 ≠ h) }

/-- Embedding of `scheduleRefresh` (token-manager.js lines 89-133):
clear any timer held in `_refreshTimeout`, compute
`msUntilRefresh = (expiresAt - 30 min) - now`, and install either the
immediate-refresh timer (when `msUntilRefresh <= 0`) or the scheduled
one firing after exactly `msUntilRefresh`. -/
def scheduleRefresh (now expiresAt : Int) (st : TMState) : TMState :=
  let st₁ := match st.refreshTimeoutVar with
    | some h =>
      let c := clearTimeoutOp h st
      { c with refreshTimeoutVar := none }
    | none => st
  let msUntilRefresh := (expiresAt - refreshBeforeExpiryMs) - now
  let k := if msUntilRefresh ≤ 0 then TimerKind.immediate
           else TimerKind.scheduled msUntilRefresh
  let p := setTimeoutOp k st₁
  { p.2 with refreshTimeoutVar := some p.1 }

/-- Embedding of `forceRefresh` (token-manager.js lines 60-83).
`fetchResult` is the outcome of `fetchTokenFromBrowser()` (`none` when
it throws, in which case the error propagates to the caller and no
state written by `forceRefresh` changes).  On success the record is
stored in the Keychain, cached in memory, the next refresh is
scheduled, and the refresh callback is notified.  The second component
counts invocations of the interactive fetcher (always 1 here).  The
JavaScript function returns the token string; the record is returned
so theorems can speak about its expiry. -/
def forceRefresh (now : Int) (fetchResult : Option TokenRecord) (st : TMState) :
    Except Unit (TokenRecord × TMState) × Nat :=
  match fetchResult with
  | none => (Except.error (), 1)
  | some r =>
    let st₁ := { st with stored := some r, cached := some r }
    let st₂ := scheduleRefresh now r.expiresAt st₁
    let st₃ := if st₂.callbackSet
               then { st₂ with notified := st₂.notified ++ [r.token] }
               else st₂
    (Except.ok (r, st₃), 1)

/-- The Keychain branch of `getValidToken` (token-manager.js lines
37-53): adopt a still-valid stored record into the cache and schedule
its refresh, otherwise fall through to `forceRefresh`. -/
def getValidTokenFromStore (now : Int) (fetchResult : Option TokenRecord) (st : TMState) :
    Except Unit (TokenRecord × TMState) × Nat :=
  match st.stored with
  | some s =>
    if now < s.expiresAt then
      let st₁ := { st with cached := some s }
      let st₂ := scheduleRefresh now s.expiresAt st₁
      (Except.ok (s, st₂), 0)
    else forceRefresh now fetchResult st
  | none => forceRefresh now fetchResult st

/-- Embedding of `getValidToken` (token-manager.js lines 30-54).  The
in-memory check keeps the JavaScript truthiness of `_cachedToken`: an
empty token string is falsy and the check fails.  The second component
counts invocations of the interactive fetcher during the call. -/
def getValidToken (now : Int) (fetchResult : Option TokenRecord) (st : TMState) :
    Except Unit (TokenRecord × TMState) × Nat :=
  match st.cached with
  | some c =>
    if c.token ≠ "" ∧ now < c.expiresAt then (Except.ok (c, st), 0)
    else getValidTokenFromStore now fetchResult st
  | none => getValidTokenFromStore now fetchResult st

/-- Embedding of `clearCachedToken` (token-manager.js lines 149-160):
cancel the pending timer, clear the in-memory pair, clear the Keychain. -/
def clearCachedToken (st : TMState) : TMState :=
  let st₁ := match st.refreshTimeoutVar with
    | some h =>
      let c := clearTimeoutOp h st
      { c with refreshTimeoutVar := none }
    | none => st
  { st₁ with cached := none, stored := none }

/-- Firing of a live timer `(h, k)` (its callback in token-manager.js).
The fired timer is consumed.  The immediate-refresh callback (lines
104-110) and the retry callback (lines 124-130) run `forceRefresh` and
on failure only log; the scheduled-refresh callback (lines 117-132)
on failure installs the 5-minute retry timer and assigns it to
`_refreshTimeout` without a prior `clearTimeout`.  No failure is ever
surfaced: the function is total on states. -/
def fireTimer (now : Int) (fetchResult : Option TokenRecord) (h : Nat) (k : TimerKind)
    (st : TMState) : TMState :=
  let st₀ := { st with activeTimers := st.activeTimers.filter (fun t => t.1 ≠ h) }
  match k with
  | TimerKind.immediate =>
    match (forceRefresh now fetchResult st₀).1 with
    | Except.ok pr => pr.2
    | Except.error _ => st₀
  | TimerKind.scheduled _ =>
    match (forceRefresh now fetchResult st₀).1 with
    | Except.ok pr => pr.2
    | Except.error _ =>
      let p := setTimeoutOp TimerKind.retry st₀
      { p.2 with refreshTimeoutVar := some p.1 }
  | TimerKind.retry =>
    match (forceRefresh now fetchResult st₀).1 with
    | Except.ok pr => pr.2
    | Except.error _ => st₀

/-- The state after a `forceRefresh` call as its caller observes it:
on a fetch failure the exception propagates and the module state is
unchanged. -/
def forceRefreshResState (now : Int) (fetchResult : Option TokenRecord) (st : TMState) :
    TMState :=
  match (forceRefresh now fetchResult st).1 with
  | Except.ok pr => pr.2
  | Except.error _ => st

/-- The state after a `getValidToken` call as its caller observes it. -/
def getValidTokenResState (now : Int) (fetchResult : Option TokenRecord) (st : TMState) :
    TMState :=
  match (getValidToken now fetchResult st).1 with
  | Except.ok pr => pr.2
  | Except.error _ => st

/-- The single-timer invariant of the spec: at most one live timer, and
the `_refreshTimeout` variable holds the handle of the live timer when
one exists. -/
def timerInv (st : TMState) : Prop :=
  st.activeTimers.length ≤ 1 ∧
  ∀ t ∈ st.activeTimers, st.refreshTimeoutVar = some t.1

/-- The in-memory cache check of `getValidToken` succeeds
(JavaScript truthiness of the token string included). -/
def cacheHit (now : Int) (st : TMState) : Bool :=
  match st.cached with
  | some c => decide (c.token ≠ "") && decide (now < c.expiresAt)
  | none => false

/-- The Keychain check of `getValidToken` succeeds. -/
def storeHit (now : Int) (st : TMState) : Bool :=
  match st.stored with
  | some s => decide (now < s.expiresAt)
  | none => false

end TokenManager

namespace AuthFacade

/-- The possible values of `_authMethod` in webex-config.js. -/
inductive AuthMode
  | static
  | autoRefresh
  | oauth
deriving DecidableEq, Repr

/-- The errors `initializeAuth` can throw: the macOS-only guard
(line 46), the no-configuration error (lines 76-80), and a failure of
the underlying token acquisition, which propagates. -/
inductive AuthInitError
  | platformUnsupported
  | noAuthConfigured
  | acquisitionFailed
deriving DecidableEq, Repr

/-- Whitespace as matched by the `\s` class of the Bearer-stripping
regex (the common cases: space, tab, newline, carriage return). -/
def isSpaceChar (c : Char) : Bool :=
  c = ' ' ∨ c = '\t' ∨ c = '\n' ∨ c = '\r'

/-- Embedding of `staticToken.replace(/^Bearer\s+/, ...)`
(webex-config.js line 36): strip one leading `Bearer` followed by at
least one whitespace character, together with all that whitespace. -/
def stripBearer (s : String) : String :=
  let rest := s.drop 6
  if s.startsWith "Bearer" ∧ rest.takeWhile isSpaceChar ≠ "" then
    rest.dropWhile isSpaceChar
  else s

/-- The configuration environment read by `initializeAuth`:
`staticToken` is `WEBEX_PUBLIC_WORKSPACE_API_KEY`, `autoRefreshVar` is
`WEBEX_AUTO_REFRESH_TOKEN`, `platform` is `process.platform`, and
`hasOAuthCreds` the value of the external `hasOAuthCredentials()`
predicate (OAuth client id and secret both configured). -/
structure AuthEnv where
  staticToken : Option String
  autoRefreshVar : Option String
  platform : String
  hasOAuthCreds : Bool
deriving DecidableEq, Repr

/-- The non-static part of `initializeAuth` (webex-config.js lines
44-80).  `autoToken` is the outcome of the keychain manager's
`getValidToken()` and `oauthToken` that of the OAuth module's
`getValidToken()`; a thrown acquisition error propagates. -/
def initializeAuthNonStatic (env : AuthEnv)
    (autoToken oauthToken : Except Unit String) :
    Except AuthInitError (AuthMode × String) :=
  if env.autoRefreshVar = some "true" then
    if env.platform ≠ "darwin" then Except.error AuthInitError.platformUnsupported
    else match autoToken with
      | Except.ok t => Except.ok (AuthMode.autoRefresh, t)
      | Except.error _ => Except.error AuthInitError.acquisitionFailed
  else if env.hasOAuthCreds then
    match oauthToken with
    | Except.ok t => Except.ok (AuthMode.oauth, t)
    | Except.error _ => Except.error AuthInitError.acquisitionFailed
  else Except.error AuthInitError.noAuthConfigured

/-- Embedding of `initializeAuth` (webex-config.js lines 32-81),
returning the selected mode and the cached token.  JavaScript
truthiness of the static token is kept: an empty string is falsy. -/
def initializeAuth (env : AuthEnv) (autoToken oauthToken : Except Unit String) :
    Except AuthInitError (AuthMode × String) :=
  match env.staticToken with
  | some s =>
    if s ≠ "" then Except.ok (AuthMode.static, stripBearer s)
    else initializeAuthNonStatic env autoToken oauthToken
  | none => initializeAuthNonStatic env autoToken oauthToken

/-- The static token is absent in the JavaScript-truthiness sense. -/
def staticAbsent (env : AuthEnv) : Prop :=
  env.staticToken = none ∨ env.staticToken = some ""

end AuthFacade

/-! Concrete sample inputs used to evaluate the definitions. -/

/-- A transport whose every batch is empty (a room with no history). -/
def fbEmpty : Option String → Nat → List Msg := fun _ _ => []

/-- A date parser on which every string is an Invalid Date. -/
def parseDateNone : String → Option Int := fun _ => none

/-- A date parser mapping the literal "t0" to timestamp 0. -/
def parseDateAt0 : String → Option Int :=
  fun s => if s = "t0" then some 0 else none

/-- A sample message created at time 5. -/
def msgA : Msg :=
  { id := "m1", personEmail := "a@x", personId := "p1", created := 5,
    text := "hi", parentId := "", roomType := "group",
    extra := [("html", "...")] }

/-- A transport with exactly one message: the first batch is `[msgA]`,
every later batch is empty. -/
def fbOne : Option String → Nat → List Msg :=
  fun c _ => match c with
  | none => [msgA]
  | some _ => []

/-- A transport whose first batch is 100 copies of `msgA` (a full
batch) and whose later batches are empty. -/
def fbFull : Option String → Nat → List Msg :=
  fun c _ => match c with
  | none => List.replicate 100 msgA
  | some _ => []

/-- The empty token-manager state: nothing cached, nothing stored, no
timer, no callback. -/
def stEmpty : TokenManager.TMState :=
  { cached := none, stored := none, activeTimers := [],
    refreshTimeoutVar := none, nextHandle := 0, callbackSet := false,
    notified := [] }

/-- A token record expiring at time 100 (valid at time 0). -/
def recFresh : TokenManager.TokenRecord := { token := "tok", expiresAt := 100 }

/-- A token record that expired at time -10 (stale at time 0). -/
def recStale : TokenManager.TokenRecord := { token := "old", expiresAt := -10 }

/-- A token record fetched by the browser, expiring far in the future. -/
def recNew : TokenManager.TokenRecord :=
  { token := "new", expiresAt := 4000000 }

/-- A state with a valid in-memory cached record. -/
def stCached : TokenManager.TMState := { stEmpty with cached := some recFresh }

/-- A state with a stale in-memory record and a valid Keychain record. -/
def stStored : TokenManager.TMState :=
  { stEmpty with cached := some recStale, stored := some recFresh }

/-- A state whose single live timer is a normal scheduled refresh. -/
def stTimerSched : TokenManager.TMState :=
  { stEmpty with
      activeTimers := [(0, TokenManager.TimerKind.scheduled 7)]
      refreshTimeoutVar := some 0
      nextHandle := 1 }

/-- A state whose single live timer is the immediate-refresh timer. -/
def stTimerImm : TokenManager.TMState :=
  { stEmpty with
      activeTimers := [(0, TokenManager.TimerKind.immediate)]
      refreshTimeoutVar := some 0
      nextHandle := 1 }

/-- A state whose single live timer is the 5-minute retry timer. -/
def stTimerRetry : TokenManager.TMState :=
  { stEmpty with
      activeTimers := [(0, TokenManager.TimerKind.retry)]
      refreshTimeoutVar := some 0
      nextHandle := 1 }

/-- An environment configured with a static token carrying a Bearer
prefix. -/
def envStatic : AuthFacade.AuthEnv :=
  { staticToken := some "Bearer tok", autoRefreshVar := none,
    platform := "linux", hasOAuthCreds := false }

/-- Auto-refresh requested on a non-macOS platform. -/
def envAutoBad : AuthFacade.AuthEnv :=
  { staticToken := none, autoRefreshVar := some "true",
    platform := "linux", hasOAuthCreds := false }

/-- Auto-refresh requested on macOS. -/
def envAutoMac : AuthFacade.AuthEnv :=
  { staticToken := none, autoRefreshVar := some "true",
    platform := "darwin", hasOAuthCreds := false }

/-- Only OAuth client credentials configured. -/
def envOAuth : AuthFacade.AuthEnv :=
  { staticToken := none, autoRefreshVar := none,
    platform := "linux", hasOAuthCreds := true }

/-- No authentication configured at all. -/
def envNone : AuthFacade.AuthEnv :=
  { staticToken := none, autoRefreshVar := none,
    platform := "linux", hasOAuthCreds := false }

/-! Helper lemmas shared by several theorems. -/

theorem itemize_length (b : Bool) (l : List Msg) : (itemize b l).length = l.length := by
  cases b <;> simp [itemize]

theorem takeWhile_length_le {α : Type} (p : α → Bool) (l : List α) :
    (l.takeWhile p).length ≤ l.length := by
  induction l with
  | nil => simp
  | cons a l ih =>
    by_cases h : p a
    · simpa [List.takeWhile_cons_of_pos h] using Nat.succ_le_succ ih
    · simp [List.takeWhile_cons_of_neg h]

theorem takeWhile_eq_self_of_full {α : Type} (p : α → Bool) (l : List α)
    (h : ¬ (l.takeWhile p).length < l.length) : l.takeWhile p = l := by
  induction l with
  | nil => simp
  | cons a l ih =>
    by_cases hp : p a
    · rw [List.takeWhile_cons_of_pos hp] at h ⊢
      simp only [List.length_cons] at h
      exact congrArg (a :: ·) (ih (fun hlt => h (Nat.succ_lt_succ hlt)))
    · rw [List.takeWhile_cons_of_neg hp] at h
      simp at h

/-- The central invariant of the pagination loop, for a nonzero `max`:
the fetch list grows by the cursors actually requested, the collected
messages truncated to `max` are exactly the in-range prefix of the
concatenation of the fetched batches truncated to `max`, every batch
but the last consists of in-range messages only (so no batch is
fetched after the time boundary has been crossed), and at most `fuel`
batches are fetched. -/
theorem collectLoop_spec (fetchBatch : Option String → Nat → List Msg) (T : Int) (M : Nat)
    (hM : M ≠ 0) :
    ∀ (fuel : Nat) (cursor : Option String) (acc : List Msg) (fs : List (Option String)),
      acc.length < M →
      ∃ cs : List (Option String),
        (collectLoop fetchBatch T M fuel cursor acc fs).2 = fs ++ cs ∧
        ((collectLoop fetchBatch T M fuel cursor acc fs).1).take M
          = (acc ++ (fetchedBatches fetchBatch cs).takeWhile (inRange T)).take M ∧
        (∀ c ∈ cs.dropLast, ∀ m ∈ fetchBatch c batchSize, inRange T m = true) ∧
        cs.length ≤ fuel := by
  intro fuel
  induction fuel with
  | zero =>
    intro cursor acc fs _
    exact ⟨[], by simp [collectLoop], by simp [collectLoop, fetchedBatches],
           by simp, by simp⟩
  | succ fuel ih =>
    intro cursor acc fs hacc
    simp only [collectLoop]
    by_cases hb : (fetchBatch cursor batchSize).isEmpty = true
    · rw [if_pos hb]
      refine ⟨[cursor], rfl, ?_, by simp, by simp⟩
      simp [fetchedBatches, List.isEmpty_iff.mp hb]
    · rw [if_neg hb]
      by_cases hold : ((fetchBatch cursor batchSize).takeWhile (inRange T)).length
          < (fetchBatch cursor batchSize).length
      · rw [if_pos hold]
        refine ⟨[cursor], rfl, ?_, by simp, by simp⟩
        simp [fetchedBatches]
      · rw [if_neg hold]
        have hfull : (fetchBatch cursor batchSize).takeWhile (inRange T)
            = fetchBatch cursor batchSize :=
          takeWhile_eq_self_of_full _ _ hold
        have hall : ∀ m ∈ fetchBatch cursor batchSize, inRange T m = true :=
          List.takeWhile_eq_self_iff.mp hfull
        by_cases hmax : M ≤ (acc ++ (fetchBatch cursor batchSize).takeWhile (inRange T)).length
        · rw [if_pos ⟨hM, hmax⟩]
          refine ⟨[cursor], rfl, ?_, by simp, by simp⟩
          simp [fetchedBatches, List.take_take]
        · rw [if_neg (fun h => hmax h.2)]
          by_cases hshort : (fetchBatch cursor batchSize).length < batchSize
          · rw [if_pos hshort]
            refine ⟨[cursor], rfl, ?_, by simp, by simp⟩
            simp [fetchedBatches]
          · rw [if_neg hshort]
            obtain ⟨cs', h1, h2, h3, h4⟩ :=
              ih (match (fetchBatch cursor batchSize).getLast? with
                  | some m => some m.id
                  | none => cursor)
                (acc ++ (fetchBatch cursor batchSize).takeWhile (inRange T))
                (fs ++ [cursor]) (Nat.lt_of_not_le hmax)
            refine ⟨cursor :: cs', ?_, ?_, ?_, ?_⟩
            · rw [h1, List.append_assoc]
              rfl
            · rw [h2, hfull]
              have hsplit : (fetchedBatches fetchBatch (cursor :: cs')).takeWhile (inRange T)
                  = fetchBatch cursor batchSize
                    ++ (fetchedBatches fetchBatch cs').takeWhile (inRange T) := by
                have : fetchedBatches fetchBatch (cursor :: cs')
                    = fetchBatch cursor batchSize ++ fetchedBatches fetchBatch cs' := by
                  simp [fetchedBatches]
                rw [this, List.takeWhile_append_of_pos hall]
              rw [hsplit, ← List.append_assoc]
            · intro c hc m hm
              rcases cs' with _ | ⟨x, xs⟩
              · simp at hc
              · rw [List.dropLast_cons₂] at hc
                rcases List.mem_cons.mp hc with rfl | hc'
                · exact hall m hm
                · exact h3 c hc' m hm
            · simpa using Nat.succ_le_succ h4

/-- The pagination-loop invariant when `max = 0`: JavaScript
truthiness makes the `collected.length >= max` stop condition
unreachable (`max && ...` is falsy), so the loop never truncates and
only stops at the time boundary, the end of history, or the iteration
cap; the collected list is the full in-range prefix of the fetched
batches. -/
theorem collectLoop_spec_zero (fetchBatch : Option String → Nat → List Msg) (T : Int) :
    ∀ (fuel : Nat) (cursor : Option String) (acc : List Msg) (fs : List (Option String)),
      ∃ cs : List (Option String),
        (collectLoop fetchBatch T 0 fuel cursor acc fs).2 = fs ++ cs ∧
        (collectLoop fetchBatch T 0 fuel cursor acc fs).1
          = acc ++ (fetchedBatches fetchBatch cs).takeWhile (inRange T) ∧
        (∀ c ∈ cs.dropLast, ∀ m ∈ fetchBatch c batchSize, inRange T m = true) ∧
        cs.length ≤ fuel := by
  intro fuel
  induction fuel with
  | zero =>
    intro cursor acc fs
    exact ⟨[], by simp [collectLoop], by simp [collectLoop, fetchedBatches],
           by simp, by simp⟩
  | succ fuel ih =>
    intro cursor acc fs
    simp only [collectLoop]
    by_cases hb : (fetchBatch cursor batchSize).isEmpty = true
    · rw [if_pos hb]
      refine ⟨[cursor], rfl, ?_, by simp, by simp⟩
      simp [fetchedBatches, List.isEmpty_iff.mp hb]
    · rw [if_neg hb]
      by_cases hold : ((fetchBatch cursor batchSize).takeWhile (inRange T)).length
          < (fetchBatch cursor batchSize).length
      · rw [if_pos hold]
        refine ⟨[cursor], rfl, ?_, by simp, by simp⟩
        simp [fetchedBatches]
      · rw [if_neg hold]
        have hfull : (fetchBatch cursor batchSize).takeWhile (inRange T)
            = fetchBatch cursor batchSize :=
          takeWhile_eq_self_of_full _ _ hold
        have hall : ∀ m ∈ fetchBatch cursor batchSize, inRange T m = true :=
          List.takeWhile_eq_self_iff.mp hfull
        rw [if_neg (fun h => h.1 rfl)]
        by_cases hshort : (fetchBatch cursor batchSize).length < batchSize
        · rw [if_pos hshort]
          refine ⟨[cursor], rfl, ?_, by simp, by simp⟩
          simp [fetchedBatches]
        · rw [if_neg hshort]
          obtain ⟨cs', h1, h2, h3, h4⟩ :=
            ih (match (fetchBatch cursor batchSize).getLast? with
                | some m => some m.id
                | none => cursor)
              (acc ++ (fetchBatch cursor batchSize).takeWhile (inRange T))
              (fs ++ [cursor])
          refine ⟨cursor :: cs', ?_, ?_, ?_, ?_⟩
          · rw [h1, List.append_assoc]
            rfl
          · rw [h2, hfull]
            have hsplit : (fetchedBatches fetchBatch (cursor :: cs')).takeWhile (inRange T)
                = fetchBatch cursor batchSize
                  ++ (fetchedBatches fetchBatch cs').takeWhile (inRange T) := by
              have : fetchedBatches fetchBatch (cursor :: cs')
                  = fetchBatch cursor batchSize ++ fetchedBatches fetchBatch cs' := by
                simp [fetchedBatches]
              rw [this, List.takeWhile_append_of_pos hall]
            rw [hsplit, ← List.append_assoc]
          · intro c hc m hm
            rcases cs' with _ | ⟨x, xs⟩
            · simp at hc
            · rw [List.dropLast_cons₂] at hc
              rcases List.mem_cons.mp hc with rfl | hc'
              · exact hall m hm
              · exact h3 c hc' m hm
          · simpa using Nat.succ_le_succ h4

/-- C2 (amended): for every transport, every parsing time bound `T`
and every NONZERO limit `M`, the listing called with `after` and
`max = M` returns exactly the length-`M` prefix of the in-range prefix
of the concatenation, in fetch order, of the batches it requested —
hence only items with `created >= T`, in upstream order, and at most
`M` of them — and every batch other than the last one it fetched
contains in-range items only, i.e. no further batch is fetched once an
item with `created < T` has been seen.  (For `M = 0` the claim fails:
JavaScript truthiness disables the limit; see the counterexample.) -/
theorem c2_listSince_bound (fetchBatch : Option String → Nat → List Msg)
    (parseDate : String → Option Int) (beforeMessage : Option String)
    (a : String) (T : Int) (M : Nat) (summarize : Bool)
    (ha : a ≠ "") (hp : parseDate a = some T) (hM : M ≠ 0) :
    ∃ cs : List (Option String),
      executeFunction fetchBatch parseDate beforeMessage (some a) M summarize
        = (ExecResult.filtered
            { items := itemize summarize
                (((fetchedBatches fetchBatch cs).takeWhile (inRange T)).take M)
              count := (((fetchedBatches fetchBatch cs).takeWhile (inRange T)).take M).length
              filtered := true
              afterFilter := a }, cs) ∧
      (∀ m ∈ ((fetchedBatches fetchBatch cs).takeWhile (inRange T)).take M,
        T ≤ m.created) ∧
      (((fetchedBatches fetchBatch cs).takeWhile (inRange T)).take M).length ≤ M ∧
      (∀ c ∈ cs.dropLast, ∀ m ∈ fetchBatch c batchSize, T ≤ m.created) := by
  obtain ⟨cs, h1, h2, h3, h4⟩ :=
    collectLoop_spec fetchBatch T M hM maxIterations beforeMessage [] []
      (by simpa using Nat.pos_of_ne_zero hM)
  simp only [List.nil_append] at h1 h2
  refine ⟨cs, ?_, ?_, ?_, ?_⟩
  · simp only [executeFunction, if_neg ha, hp, if_pos hM]
    rw [h1, h2]
  · intro m hm
    have : inRange T m = true :=
      List.mem_takeWhile_imp (List.take_subset _ _ hm)
    exact of_decide_eq_true this
  · calc (((fetchedBatches fetchBatch cs).takeWhile (inRange T)).take M).length
        = min M ((fetchedBatches fetchBatch cs).takeWhile (inRange T)).length := by
          rw [List.length_take]
      _ ≤ M := Nat.min_le_left _ _
  · intro c hc m hm
    exact of_decide_eq_true (h3 c hc m hm)

/-- Witness for C2 (amended) on the one-message transport with
`max = 5`. -/
theorem c2_listSince_bound_witness :
    ∃ cs : List (Option String),
      executeFunction fbOne parseDateAt0 none (some "t0") 5 true
        = (ExecResult.filtered
            { items := itemize true
                (((fetchedBatches fbOne cs).takeWhile (inRange 0)).take 5)
              count := (((fetchedBatches fbOne cs).takeWhile (inRange 0)).take 5).length
              filtered := true
              afterFilter := "t0" }, cs) ∧
      (∀ m ∈ ((fetchedBatches fbOne cs).takeWhile (inRange 0)).take 5,
        (0 : Int) ≤ m.created) ∧
      (((fetchedBatches fbOne cs).takeWhile (inRange 0)).take 5).length ≤ 5 ∧
      (∀ c ∈ cs.dropLast, ∀ m ∈ fbOne c batchSize, (0 : Int) ≤ m.created) :=
  c2_listSince_bound fbOne parseDateAt0 none "t0" 0 5 true (by decide) rfl (by decide)

/-- Counterexample for C2 as stated: called with `max = 0` (a limit
`M` in the claim's "every limit M"), the operation does not return "at
most 0 items" — `if (max && ...)` and `max ? ... : ...` are falsy for
0, the limit is ignored, and the single in-range message is returned:
the count is 1, exceeding M = 0. -/
theorem c2_max_zero_cex :
    (executeFunction fbOne parseDateAt0 none (some "t0") 0 true).1
      = ExecResult.filtered
          { items := [Item.summary (summarizeMessage msgA)], count := 1,
            filtered := true, afterFilter := "t0" } ∧
    ¬ ((1 : Nat) ≤ 0) := ⟨rfl, by decide⟩

/-- C4 (amended): with no `after` bound (or the falsy empty string)
the engine performs exactly one batch fetch regardless of how many
items the API returns; with `after` present and `max = 0`, however,
JavaScript truthiness disables the limit check entirely: the engine
paginates until the time boundary, the end of history or the
20-iteration safety cap, so it can fetch several batches (bounded by
`maxIterations`), and collects the whole in-range prefix untruncated. -/
theorem c4_no_after_single_fetch
    (fetchBatch : Option String → Nat → List Msg)
    (parseDate : String → Option Int) (beforeMessage : Option String)
    (a : String) (T : Int) (M : Nat) (summarize : Bool) :
    executeFunction fetchBatch parseDate beforeMessage none M summarize
      = (ExecResult.plain (itemize summarize (fetchBatch beforeMessage M)),
         [beforeMessage]) ∧
    executeFunction fetchBatch parseDate beforeMessage (some "") M summarize
      = (ExecResult.plain (itemize summarize (fetchBatch beforeMessage M)),
         [beforeMessage]) ∧
    (a ≠ "" → parseDate a = some T →
      ∃ cs : List (Option String),
        executeFunction fetchBatch parseDate beforeMessage (some a) 0 summarize
          = (ExecResult.filtered
              { items := itemize summarize
                  ((fetchedBatches fetchBatch cs).takeWhile (inRange T))
                count := ((fetchedBatches fetchBatch cs).takeWhile (inRange T)).length
                filtered := true
                afterFilter := a }, cs) ∧
        cs.length ≤ maxIterations) := by
  refine ⟨by simp [executeFunction], by simp [executeFunction], ?_⟩
  intro ha hp
  obtain ⟨cs, h1, h2, _h3, h4⟩ :=
    collectLoop_spec_zero fetchBatch T maxIterations beforeMessage [] []
  simp only [List.nil_append] at h1 h2
  refine ⟨cs, ?_, h4⟩
  simp only [executeFunction, if_neg ha, hp]
  rw [if_neg (fun h => h rfl), h1, h2]

/-- Witness for C4 (amended): the single-fetch path on a concrete
transport, and the `max = 0` paginated path on the empty transport. -/
theorem c4_no_after_single_fetch_witness :
    executeFunction fbOne parseDateAt0 (some "b") none 50 true
      = (ExecResult.plain (itemize true (fbOne (some "b") 50)), [some "b"]) ∧
    ∃ cs : List (Option String),
      executeFunction fbEmpty parseDateAt0 none (some "t0") 0 true
        = (ExecResult.filtered
            { items := itemize true
                ((fetchedBatches fbEmpty cs).takeWhile (inRange 0))
              count := ((fetchedBatches fbEmpty cs).takeWhile (inRange 0)).length
              filtered := true
              afterFilter := "t0" }, cs) ∧
      cs.length ≤ maxIterations :=
  ⟨(c4_no_after_single_fetch fbOne parseDateAt0 (some "b") "x" 0 50 true).1,
   (c4_no_after_single_fetch fbEmpty parseDateAt0 none "t0" 0 0 true).2.2
     (by decide) rfl⟩

/-- Counterexample for C4 as stated: called with `max = 0` and an
`after` bound, against a transport whose first batch is full (100
in-range messages), the engine fetches a SECOND batch (the recorded
fetch list has length 2), refuting "exactly one batch fetch when
max = 0". -/
theorem c4_max_zero_two_fetches_cex :
    (executeFunction fbFull parseDateAt0 none (some "t0") 0 true).2
      = [none, some "m1"] ∧
    ([none, some "m1"] : List (Option String)).length ≠ 1 := ⟨rfl, by decide⟩

open TokenManager in
/-- Under the single-timer invariant, `scheduleRefresh` cancels
whatever timer was pending and installs exactly one fresh timer:
the immediate one when `msUntilRefresh <= 0`, the scheduled one
otherwise. -/
theorem scheduleRefresh_eq (now e : Int) (st : TMState) (hinv : timerInv st) :
    scheduleRefresh now e st =
      { st with
          activeTimers := [(st.nextHandle,
            if (e - refreshBeforeExpiryMs) - now ≤ 0
            then TimerKind.immediate
            else TimerKind.scheduled ((e - refreshBeforeExpiryMs) - now))]
          refreshTimeoutVar := some st.nextHandle
          nextHandle := st.nextHandle + 1 } := by
  rcases hv : st.refreshTimeoutVar with _ | h
  · have hnil : st.activeTimers = [] :=
      List.eq_nil_iff_forall_not_mem.mpr (fun t ht => by
        have h2 := hinv.2 t ht
        rw [hv] at h2
        exact Option.noConfusion h2)
    simp [scheduleRefresh, hv, setTimeoutOp, hnil]
  · have hclear : st.activeTimers.filter (fun t => decide (t.1 ≠ h)) = [] :=
      List.filter_eq_nil_iff.mpr (fun t ht => by
        have h2 := hinv.2 t ht
        rw [hv] at h2
        have h3 : t.1 = h := (Option.some.inj h2).symm
        simp [h3])
    simp only [scheduleRefresh, hv, setTimeoutOp, clearTimeoutOp]
    simp [hclear]
    intro a b hm
    have h2 := hinv.2 (a, b) hm
    rw [hv] at h2
    exact (Option.some.inj h2).symm

open TokenManager in
/-- Function `scheduleRefresh` preserves the single-timer invariant and leaves
exactly one live timer. -/
theorem scheduleRefresh_inv (now e : Int) (st : TMState) (hinv : timerInv st) :
    timerInv (scheduleRefresh now e st) ∧
    (scheduleRefresh now e st).activeTimers.length = 1 := by
  rw [scheduleRefresh_eq now e st hinv]
  refine ⟨⟨by simp, ?_⟩, by simp⟩
  intro t ht
  simp only [List.mem_singleton] at ht
  subst ht
  rfl

open TokenManager in
/-- Under the invariant, a live timer is the only live timer. -/
theorem timers_singleton_of_mem (st : TMState) (hinv : timerInv st)
    (h : Nat) (k : TimerKind) (hm : (h, k) ∈ st.activeTimers) :
    st.activeTimers = [(h, k)] := by
  rcases hts : st.activeTimers with _ | ⟨t, ts⟩
  · rw [hts] at hm
    exact absurd hm (List.not_mem_nil _)
  · rcases ts with _ | ⟨t', ts'⟩
    · rw [hts] at hm
      simp only [List.mem_singleton] at hm
      rw [hm]
    · have := hinv.1
      rw [hts] at this
      simp at this

open TokenManager in
/-- Function `scheduleRefresh` touches only the two timer fields. -/
theorem scheduleRefresh_fields (now e : Int) (st : TMState) :
    (scheduleRefresh now e st).cached = st.cached ∧
    (scheduleRefresh now e st).stored = st.stored ∧
    (scheduleRefresh now e st).callbackSet = st.callbackSet ∧
    (scheduleRefresh now e st).notified = st.notified := by
  simp only [scheduleRefresh, setTimeoutOp, clearTimeoutOp]
  rcases st.refreshTimeoutVar <;> simp

open TokenManager in
/-- The success case of `forceRefresh`: the token is returned, and the
resulting state is the refresh-scheduled update of the cache and
store, plus the callback notification (which does not touch timers). -/
theorem forceRefresh_ok (now : Int) (r : TokenRecord) (st : TMState) :
    ∃ st', forceRefresh now (some r) st = (Except.ok (r, st'), 1) ∧
      st'.activeTimers
        = (scheduleRefresh now r.expiresAt
            { st with stored := some r, cached := some r }).activeTimers ∧
      st'.refreshTimeoutVar
        = (scheduleRefresh now r.expiresAt
            { st with stored := some r, cached := some r }).refreshTimeoutVar ∧
      st'.cached = some r ∧ st'.stored = some r := by
  obtain ⟨hc, hs, -, -⟩ :=
    scheduleRefresh_fields now r.expiresAt { st with stored := some r, cached := some r }
  simp only [forceRefresh]
  split
  · exact ⟨_, rfl, rfl, rfl, by simpa using hc, by simpa using hs⟩
  · exact ⟨_, rfl, rfl, rfl, by simpa using hc, by simpa using hs⟩

open TokenManager in
/-- Function `forceRefresh` preserves the single-timer invariant; on success it
leaves exactly one live timer. -/
theorem forceRefreshResState_inv (now : Int) (fr : Option TokenRecord) (st : TMState)
    (hinv : timerInv st) :
    timerInv (forceRefreshResState now fr st) ∧
    (∀ r, fr = some r → (forceRefreshResState now fr st).activeTimers.length = 1) := by
  rcases fr with _ | r
  · exact ⟨hinv, fun r hr => Option.noConfusion hr⟩
  · obtain ⟨st', he, ht, hvar, -, -⟩ := forceRefresh_ok now r st
    have hres : forceRefreshResState now (some r) st = st' := by
      simp [forceRefreshResState, he]
    have hinv₀ : timerInv { st with stored := some r, cached := some r } := hinv
    have hinv₁ : timerInv (scheduleRefresh now r.expiresAt
        { st with stored := some r, cached := some r }) :=
      (scheduleRefresh_inv now r.expiresAt _ hinv₀).1
    have hlen : (scheduleRefresh now r.expiresAt
        { st with stored := some r, cached := some r }).activeTimers.length = 1 :=
      (scheduleRefresh_inv now r.expiresAt _ hinv₀).2
    rw [hres]
    refine ⟨⟨?_, ?_⟩, ?_⟩
    · rw [ht]
      exact le_of_eq hlen
    · intro t htm
      rw [hvar]
      exact hinv₁.2 t (ht ▸ htm)
    · intro r' hr'
      rw [ht]
      exact hlen

open TokenManager in
/-- The in-memory-cache branch of `getValidToken`. -/
theorem getValidToken_cache_hit (now : Int) (fr : Option TokenRecord) (st : TMState)
    (c : TokenRecord) (hc : st.cached = some c) (ht : c.token ≠ "")
    (he : now < c.expiresAt) :
    getValidToken now fr st = (Except.ok (c, st), 0) := by
  simp only [getValidToken, hc]
  rw [if_pos ⟨ht, he⟩]

open TokenManager in
/-- The Keychain branch of `getValidToken`. -/
theorem getValidToken_store_hit (now : Int) (fr : Option TokenRecord) (st : TMState)
    (s : TokenRecord) (hmiss : cacheHit now st = false) (hs : st.stored = some s)
    (he : now < s.expiresAt) :
    getValidToken now fr st
      = (Except.ok (s, scheduleRefresh now s.expiresAt { st with cached := some s }), 0) := by
  have hfrom : getValidTokenFromStore now fr st
      = (Except.ok (s, scheduleRefresh now s.expiresAt { st with cached := some s }), 0) := by
    simp only [getValidTokenFromStore, hs]
    rw [if_pos he]
  rcases hcc : st.cached with _ | c
  · simp only [getValidToken, hcc]
    exact hfrom
  · have hng : ¬ (c.token ≠ "" ∧ now < c.expiresAt) := by
      rintro ⟨h1, h2⟩
      have : cacheHit now st = true := by simp [cacheHit, hcc, h1, h2]
      rw [hmiss] at this
      exact Bool.noConfusion this
    simp only [getValidToken, hcc]
    rw [if_neg hng]
    exact hfrom

open TokenManager in
/-- The fall-through branch of `getValidToken`: cache and store both
miss, so the call is exactly a `forceRefresh`. -/
theorem getValidToken_miss (now : Int) (fr : Option TokenRecord) (st : TMState)
    (hmiss : cacheHit now st = false) (hsmiss : storeHit now st = false) :
    getValidToken now fr st = forceRefresh now fr st := by
  have hfrom : getValidTokenFromStore now fr st = forceRefresh now fr st := by
    rcases hss : st.stored with _ | s
    · simp only [getValidTokenFromStore, hss]
    · have hng : ¬ (now < s.expiresAt) := by
        intro h1
        have : storeHit now st = true := by simp [storeHit, hss, h1]
        rw [hsmiss] at this
        exact Bool.noConfusion this
      simp only [getValidTokenFromStore, hss]
      rw [if_neg hng]
  rcases hcc : st.cached with _ | c
  · simp only [getValidToken, hcc]
    exact hfrom
  · have hng : ¬ (c.token ≠ "" ∧ now < c.expiresAt) := by
      rintro ⟨h1, h2⟩
      have : cacheHit now st = true := by simp [cacheHit, hcc, h1, h2]
      rw [hmiss] at this
      exact Bool.noConfusion this
    simp only [getValidToken, hcc]
    rw [if_neg hng]
    exact hfrom

open TokenManager in
/-- Function `getValidToken` preserves the single-timer invariant. -/
theorem getValidTokenResState_inv (now : Int) (fr : Option TokenRecord) (st : TMState)
    (hinv : timerInv st) : timerInv (getValidTokenResState now fr st) := by
  cases hch : cacheHit now st with
  | true =>
    rcases hcc : st.cached with _ | c
    · simp [cacheHit, hcc] at hch
    · simp only [cacheHit, hcc, Bool.and_eq_true, decide_eq_true_eq] at hch
      rw [getValidTokenResState,
        getValidToken_cache_hit now fr st c hcc hch.1 hch.2]
      exact hinv
  | false =>
    cases hsh : storeHit now st with
    | true =>
      rcases hss : st.stored with _ | s
      · simp [storeHit, hss] at hsh
      · simp only [storeHit, hss, decide_eq_true_eq] at hsh
        rw [getValidTokenResState,
          getValidToken_store_hit now fr st s hch hss hsh]
        have hinv' : timerInv { st with cached := some s } := hinv
        exact (scheduleRefresh_inv now s.expiresAt _ hinv').1
    | false =>
      rw [getValidTokenResState, getValidToken_miss now fr st hch hsh]
      exact (forceRefreshResState_inv now fr st hinv).1

open TokenManager in
/-- Function `clearCachedToken` cancels every live timer. -/
theorem clearCachedToken_timers (st : TMState) (hinv : timerInv st) :
    (clearCachedToken st).activeTimers = [] ∧
    (clearCachedToken st).refreshTimeoutVar = none := by
  rcases hv : st.refreshTimeoutVar with _ | h
  · have hnil : st.activeTimers = [] :=
      List.eq_nil_iff_forall_not_mem.mpr (fun t ht => by
        have h2 := hinv.2 t ht
        rw [hv] at h2
        exact Option.noConfusion h2)
    simp [clearCachedToken, hv, hnil]
  · have hclear : st.activeTimers.filter (fun t => decide (t.1 ≠ h)) = [] :=
      List.filter_eq_nil_iff.mpr (fun t ht => by
        have h2 := hinv.2 t ht
        rw [hv] at h2
        have h3 : t.1 = h := (Option.some.inj h2).symm
        simp [h3])
    simp only [clearCachedToken, hv, clearTimeoutOp]
    simp [hclear]
    intro a b hm
    have h2 := hinv.2 (a, b) hm
    rw [hv] at h2
    exact (Option.some.inj h2).symm

open TokenManager in
/-- Firing a live timer preserves the single-timer invariant, for every
timer kind and for success and failure of the refresh it runs. -/
theorem fireTimer_inv (now : Int) (fr : Option TokenRecord) (h : Nat) (k : TimerKind)
    (st : TMState) (hinv : timerInv st) (hm : (h, k) ∈ st.activeTimers) :
    timerInv (fireTimer now fr h k st) := by
  have hsing := timers_singleton_of_mem st hinv h k hm
  have hst0 : st.activeTimers.filter (fun t => t.1 ≠ h) = [] := by
    rw [hsing]
    simp
  have hinv0 : timerInv
      { st with activeTimers := st.activeTimers.filter (fun t => t.1 ≠ h) } := by
    constructor
    · show (st.activeTimers.filter (fun t => t.1 ≠ h)).length ≤ 1
      rw [hst0]
      simp
    · intro t ht
      have ht' : t ∈ st.activeTimers.filter (fun t => t.1 ≠ h) := ht
      rw [hst0] at ht'
      exact absurd ht' (List.not_mem_nil _)
  have hok : ∀ r : TokenRecord,
      (∃ st', forceRefresh now (some r)
          { st with activeTimers := st.activeTimers.filter (fun t => t.1 ≠ h) }
        = (Except.ok (r, st'), 1) ∧ timerInv st') := by
    intro r
    obtain ⟨st', he, -, -, -, -⟩ := forceRefresh_ok now r
      { st with activeTimers := st.activeTimers.filter (fun t => t.1 ≠ h) }
    refine ⟨st', he, ?_⟩
    have hres : forceRefreshResState now (some r)
        { st with activeTimers := st.activeTimers.filter (fun t => t.1 ≠ h) } = st' := by
      simp only [forceRefreshResState]
      rw [he]
    exact hres ▸ (forceRefreshResState_inv now (some r) _ hinv0).1
  cases k with
  | immediate =>
    rcases fr with _ | r
    · exact hinv0
    · obtain ⟨st', he, hi⟩ := hok r
      have hfire : fireTimer now (some r) h TimerKind.immediate st = st' := by
        simp only [fireTimer]
        rw [he]
      rw [hfire]
      exact hi
  | scheduled d =>
    rcases fr with _ | r
    · constructor
      · show (st.activeTimers.filter (fun t => t.1 ≠ h)
            ++ [(st.nextHandle, TimerKind.retry)]).length ≤ 1
        rw [hst0]
        simp
      · intro t ht
        have ht' : t ∈ st.activeTimers.filter (fun t => t.1 ≠ h)
            ++ [(st.nextHandle, TimerKind.retry)] := ht
        rw [hst0] at ht'
        simp only [List.nil_append, List.mem_singleton] at ht'
        show some st.nextHandle = some t.1
        rw [ht']
    · obtain ⟨st', he, hi⟩ := hok r
      have hfire : fireTimer now (some r) h (TimerKind.scheduled d) st = st' := by
        simp only [fireTimer]
        rw [he]
      rw [hfire]
      exact hi
  | retry =>
    rcases fr with _ | r
    · exact hinv0
    · obtain ⟨st', he, hi⟩ := hok r
      have hfire : fireTimer now (some r) h TimerKind.retry st = st' := by
        simp only [fireTimer]
        rw [he]
      rw [hfire]
      exact hi

open TokenManager in
/-- C1: `getValidToken` resolution order.  (a) A truthy, unexpired
in-memory record is returned unchanged with no interactive fetch and
no state change; (b) otherwise an unexpired Keychain record is adopted
into the cache, a refresh is scheduled, and it is returned with no
interactive fetch; (c) otherwise the call is exactly `forceRefresh`,
which invokes the interactive fetcher exactly once; (d) provided the
interactive fetcher returns an unexpired record (its contract — it
produces a fresh token), every token `getValidToken` returns has its
expiry in the future. -/
theorem c1_getValidToken_resolution (now : Int) (fr : Option TokenRecord)
    (st : TMState) :
    (∀ c, st.cached = some c → c.token ≠ "" → now < c.expiresAt →
      getValidToken now fr st = (Except.ok (c, st), 0)) ∧
    (cacheHit now st = false → ∀ s, st.stored = some s → now < s.expiresAt →
      getValidToken now fr st
        = (Except.ok (s, scheduleRefresh now s.expiresAt
            { st with cached := some s }), 0)) ∧
    (cacheHit now st = false → storeHit now st = false →
      getValidToken now fr st = forceRefresh now fr st ∧
      (forceRefresh now fr st).2 = 1) ∧
    ((∀ f, fr = some f → now < f.expiresAt) →
      ∀ r st', (getValidToken now fr st).1 = Except.ok (r, st') →
        now < r.expiresAt) := by
  refine ⟨fun c hc ht he => getValidToken_cache_hit now fr st c hc ht he,
          fun hmiss s hs he => getValidToken_store_hit now fr st s hmiss hs he,
          fun hmiss hsmiss =>
            ⟨getValidToken_miss now fr st hmiss hsmiss, by cases fr <;> rfl⟩,
          ?_⟩
  intro hfr r st' hok
  cases hch : cacheHit now st with
  | true =>
    rcases hcc : st.cached with _ | c
    · simp [cacheHit, hcc] at hch
    · simp only [cacheHit, hcc, Bool.and_eq_true, decide_eq_true_eq] at hch
      rw [getValidToken_cache_hit now fr st c hcc hch.1 hch.2] at hok
      simp only [Except.ok.injEq, Prod.mk.injEq] at hok
      rw [← hok.1]
      exact hch.2
  | false =>
    cases hsh : storeHit now st with
    | true =>
      rcases hss : st.stored with _ | s
      · simp [storeHit, hss] at hsh
      · simp only [storeHit, hss, decide_eq_true_eq] at hsh
        rw [getValidToken_store_hit now fr st s hch hss hsh] at hok
        simp only [Except.ok.injEq, Prod.mk.injEq] at hok
        rw [← hok.1]
        exact hsh
    | false =>
      rw [getValidToken_miss now fr st hch hsh] at hok
      rcases fr with _ | f
      · simp [forceRefresh] at hok
      · obtain ⟨st₃, he, -, -, -, -⟩ := forceRefresh_ok now f st
        rw [he] at hok
        simp only [Except.ok.injEq, Prod.mk.injEq] at hok
        rw [← hok.1]
        exact hfr f rfl

/-- Witness for C1: the three resolution branches and the freshness
guarantee, each at a concrete state and time 0. -/
theorem c1_getValidToken_resolution_witness :
    TokenManager.getValidToken 0 (some recNew) stCached
      = (Except.ok (recFresh, stCached), 0) ∧
    TokenManager.getValidToken 0 (some recNew) stStored
      = (Except.ok (recFresh, TokenManager.scheduleRefresh 0 recFresh.expiresAt
          { stStored with cached := some recFresh }), 0) ∧
    (TokenManager.getValidToken 0 (some recNew) stEmpty
        = TokenManager.forceRefresh 0 (some recNew) stEmpty ∧
      (TokenManager.forceRefresh 0 (some recNew) stEmpty).2 = 1) ∧
    (∀ r st', (TokenManager.getValidToken 0 (some recNew) stEmpty).1
        = Except.ok (r, st') → (0 : Int) < r.expiresAt) :=
  ⟨(c1_getValidToken_resolution 0 (some recNew) stCached).1 recFresh rfl
     (by decide) (by decide),
   (c1_getValidToken_resolution 0 (some recNew) stStored).2.1 (by decide)
     recFresh rfl (by decide),
   (c1_getValidToken_resolution 0 (some recNew) stEmpty).2.2.1 (by decide)
     (by decide),
   (c1_getValidToken_resolution 0 (some recNew) stEmpty).2.2.2
     (fun f hf => by
       rw [show f = recNew from (Option.some.inj hf).symm]
       decide)⟩

open TokenManager in
/-- C6: the single-timer invariant (at most one live timer, tracked by
the `_refreshTimeout` variable) is preserved by `scheduleRefresh`,
`forceRefresh` (on success and on a fetch failure), `getValidToken`,
`clearCachedToken` and the firing of any live timer; and two
successive successful `forceRefresh` calls leave exactly ONE live
timer — scheduling always cancels the prior timer first.  The model
follows the run-to-completion concurrency design of the source: each
operation executes atomically on the single cooperative scheduler. -/
theorem c6_single_timer_invariant (now e : Int) (fr : Option TokenRecord)
    (r₁ r₂ : TokenRecord) (st : TMState) (hinv : timerInv st) :
    timerInv (scheduleRefresh now e st) ∧
    timerInv (forceRefreshResState now fr st) ∧
    timerInv (getValidTokenResState now fr st) ∧
    timerInv (clearCachedToken st) ∧
    (∀ h k, (h, k) ∈ st.activeTimers → timerInv (fireTimer now fr h k st)) ∧
    (forceRefreshResState now (some r₂)
        (forceRefreshResState now (some r₁) st)).activeTimers.length = 1 := by
  obtain ⟨hct, hcv⟩ := clearCachedToken_timers st hinv
  refine ⟨(scheduleRefresh_inv now e st hinv).1,
          (forceRefreshResState_inv now fr st hinv).1,
          getValidTokenResState_inv now fr st hinv,
          ⟨by rw [hct]; simp, ?_⟩,
          fun h k hm => fireTimer_inv now fr h k st hinv hm,
          ?_⟩
  · intro t ht
    rw [hct] at ht
    exact absurd ht (List.not_mem_nil _)
  · have h₁ := forceRefreshResState_inv now (some r₁) st hinv
    exact (forceRefreshResState_inv now (some r₂) _ h₁.1).2 r₂ rfl

/-- Witness for C6 at a concrete state holding one scheduled timer. -/
theorem c6_single_timer_invariant_witness :
    TokenManager.timerInv
      (TokenManager.scheduleRefresh 0 100 stTimerSched) ∧
    TokenManager.timerInv
      (TokenManager.forceRefreshResState 0 (some recNew) stTimerSched) ∧
    TokenManager.timerInv
      (TokenManager.getValidTokenResState 0 (some recNew) stTimerSched) ∧
    TokenManager.timerInv (TokenManager.clearCachedToken stTimerSched) ∧
    (∀ h k, (h, k) ∈ stTimerSched.activeTimers →
      TokenManager.timerInv
        (TokenManager.fireTimer 0 (some recNew) h k stTimerSched)) ∧
    (TokenManager.forceRefreshResState 0 (some recFresh)
        (TokenManager.forceRefreshResState 0 (some recNew)
          stTimerSched)).activeTimers.length = 1 :=
  c6_single_timer_invariant 0 100 (some recNew) recNew recFresh stTimerSched
    ⟨by decide, by decide⟩

open TokenManager in
/-- C7: on every successful fetch of a record with expiry `E`,
`refreshAt = E - 30 minutes` is computed; when `refreshAt` has already
been reached (`msUntilRefresh <= 0`, the spec's "already in the past /
within the safety window") the immediate-refresh timer with the fixed
1000 ms delay is installed, otherwise the scheduled timer firing after
exactly `refreshAt - now`, i.e. exactly at `refreshAt`; the installed
delay is positive in every case — never negative. -/
theorem c7_refresh_window (now : Int) (r : TokenRecord) (st : TMState)
    (hinv : timerInv st) :
    ∃ st', (forceRefresh now (some r) st).1 = Except.ok (r, st') ∧
      (r.expiresAt - refreshBeforeExpiryMs ≤ now →
        st'.activeTimers.map Prod.snd = [TimerKind.immediate] ∧
        timerDelay TimerKind.immediate = 1000) ∧
      (now < r.expiresAt - refreshBeforeExpiryMs →
        st'.activeTimers.map Prod.snd
          = [TimerKind.scheduled (r.expiresAt - refreshBeforeExpiryMs - now)] ∧
        now + timerDelay
            (TimerKind.scheduled (r.expiresAt - refreshBeforeExpiryMs - now))
          = r.expiresAt - refreshBeforeExpiryMs) ∧
      (∀ t ∈ st'.activeTimers, 0 < timerDelay t.2) := by
  obtain ⟨st', he, ht, -, -, -⟩ := forceRefresh_ok now r st
  have hinv₀ : timerInv { st with stored := some r, cached := some r } := hinv
  rw [scheduleRefresh_eq now r.expiresAt _ hinv₀] at ht
  refine ⟨st', by rw [he], ?_, ?_, ?_⟩
  · intro hle
    have hcond : (r.expiresAt - refreshBeforeExpiryMs) - now ≤ 0 := by omega
    rw [ht]
    exact ⟨by simp [hcond], rfl⟩
  · intro hgt
    have hcond : ¬ ((r.expiresAt - refreshBeforeExpiryMs) - now ≤ 0) := by omega
    rw [ht]
    refine ⟨by simp [hcond], ?_⟩
    simp only [timerDelay]
    omega
  · intro t htm
    rw [ht] at htm
    simp only [List.mem_singleton] at htm
    rw [htm]
    by_cases hcond : (r.expiresAt - refreshBeforeExpiryMs) - now ≤ 0
    · simp [hcond, timerDelay]
    · simp only [hcond, if_false]
      simp only [timerDelay]
      omega

/-- Witness for C7: a fetch at time 0 of a record expiring at
4000000 ms schedules a timer firing after exactly
4000000 - 1800000 = 2200000 ms. -/
theorem c7_refresh_window_witness :
    ∃ st', (TokenManager.forceRefresh 0 (some recNew) stEmpty).1
        = Except.ok (recNew, st') ∧
      (recNew.expiresAt - TokenManager.refreshBeforeExpiryMs ≤ 0 →
        st'.activeTimers.map Prod.snd = [TokenManager.TimerKind.immediate] ∧
        TokenManager.timerDelay TokenManager.TimerKind.immediate = 1000) ∧
      ((0 : Int) < recNew.expiresAt - TokenManager.refreshBeforeExpiryMs →
        st'.activeTimers.map Prod.snd
          = [TokenManager.TimerKind.scheduled
              (recNew.expiresAt - TokenManager.refreshBeforeExpiryMs - 0)] ∧
        0 + TokenManager.timerDelay
            (TokenManager.TimerKind.scheduled
              (recNew.expiresAt - TokenManager.refreshBeforeExpiryMs - 0))
          = recNew.expiresAt - TokenManager.refreshBeforeExpiryMs) ∧
      (∀ t ∈ st'.activeTimers, 0 < TokenManager.timerDelay t.2) :=
  c7_refresh_window 0 recNew stEmpty ⟨by decide, by decide⟩

open TokenManager in
/-- C5 (amended): when the normally scheduled refresh timer fires and
its `forceRefresh` throws, the failure is not surfaced (the firing
function is total on states) and exactly one retry timer with the
fixed 5-minute (300000 ms) delay is installed; when the retry timer
itself fires and fails, the failure is only logged — no timer remains,
leaving recovery to the next `getValidToken` call.  (The
immediate-refresh timer's failure path installs no retry at all; see
the counterexample against the claim as stated.) -/
theorem c5_retry_policy (now d : Int) (h : Nat) (st : TMState)
    (hinv : timerInv st) :
    ((h, TimerKind.scheduled d) ∈ st.activeTimers →
      (fireTimer now none h (TimerKind.scheduled d) st).activeTimers
        = [(st.nextHandle, TimerKind.retry)] ∧
      (fireTimer now none h (TimerKind.scheduled d) st).refreshTimeoutVar
        = some st.nextHandle ∧
      timerDelay TimerKind.retry = 5 * 60 * 1000) ∧
    ((h, TimerKind.retry) ∈ st.activeTimers →
      (fireTimer now none h TimerKind.retry st).activeTimers = []) := by
  constructor
  · intro hm
    have hsing := timers_singleton_of_mem st hinv h (TimerKind.scheduled d) hm
    have hst0 : st.activeTimers.filter (fun t => t.1 ≠ h) = [] := by
      rw [hsing]
      simp
    refine ⟨?_, rfl, rfl⟩
    show st.activeTimers.filter (fun t => t.1 ≠ h)
        ++ [(st.nextHandle, TimerKind.retry)] = [(st.nextHandle, TimerKind.retry)]
    rw [hst0]
    rfl
  · intro hm
    have hsing := timers_singleton_of_mem st hinv h TimerKind.retry hm
    have hst0 : st.activeTimers.filter (fun t => t.1 ≠ h) = [] := by
      rw [hsing]
      simp
    exact hst0

/-- Witness for C5 (amended): firing the scheduled timer of a concrete
state with a failing fetch installs the retry timer with handle 1;
firing a retry timer with a failing fetch leaves no timer. -/
theorem c5_retry_policy_witness :
    ((TokenManager.fireTimer 0 none 0 (TokenManager.TimerKind.scheduled 7)
        stTimerSched).activeTimers
      = [(1, TokenManager.TimerKind.retry)] ∧
     (TokenManager.fireTimer 0 none 0 (TokenManager.TimerKind.scheduled 7)
        stTimerSched).refreshTimeoutVar = some 1 ∧
     TokenManager.timerDelay TokenManager.TimerKind.retry = 5 * 60 * 1000) ∧
    (TokenManager.fireTimer 0 none 0 TokenManager.TimerKind.retry
        stTimerRetry).activeTimers = [] :=
  ⟨(c5_retry_policy 0 7 0 stTimerSched ⟨by decide, by decide⟩).1 (by decide),
   (c5_retry_policy 0 7 0 stTimerRetry ⟨by decide, by decide⟩).2 (by decide)⟩

/-- Counterexample for C5 as stated: the immediate-refresh timer is a
scheduled background refresh (token-manager.js lines 104-110), yet
when it fires and its `forceRefresh` throws, its catch block only
logs — no retry timer is installed: firing it on a failing fetch
leaves an empty timer list, not a pending 5-minute retry. -/
theorem c5_immediate_no_retry_cex :
    (0, TokenManager.TimerKind.immediate) ∈ stTimerImm.activeTimers ∧
    (TokenManager.fireTimer 0 none 0 TokenManager.TimerKind.immediate
        stTimerImm).activeTimers = [] := by
  exact ⟨by decide, rfl⟩

/-- C8: for every unparsable `after` value the listing operation
performs zero network calls (the recorded fetch list is empty) and
returns the structured `{error, details}` value describing the invalid
time bound instead of propagating an exception (the embedding, like
the tool, is a total function into `ExecResult`). -/
theorem c8_invalid_after_no_fetch (fetchBatch : Option String → Nat → List Msg)
    (parseDate : String → Option Int) (beforeMessage : Option String)
    (a : String) (maxArg : Nat) (summarize : Bool)
    (ha : a ≠ "") (hp : parseDate a = none) :
    executeFunction fetchBatch parseDate beforeMessage (some a) maxArg summarize
      = (ExecResult.err (invalidAfterMessage a) errorStack, []) := by
  simp [executeFunction, ha, hp]

/-- Witness for C8 at the concrete input "not-a-date". -/
theorem c8_invalid_after_no_fetch_witness :
    executeFunction fbEmpty parseDateNone none (some "not-a-date") 50 true
      = (ExecResult.err (invalidAfterMessage "not-a-date") errorStack, []) :=
  c8_invalid_after_no_fetch fbEmpty parseDateNone none "not-a-date" 50 true
    (by decide) rfl

/-- C10: `summarize` defaults to true; `summarizeMessage` copies
exactly the seven fields id, personEmail, personId, created, text,
parentId, roomType unchanged (its result type `SummaryMsg` has no
further field, so every other upstream field is dropped); on both the
single-fetch path and the paginated path the returned items are the
summarized images of the collected upstream messages when summarize is
true, and exactly the collected upstream messages when it is false. -/
theorem c10_summarize_shape (fetchBatch : Option String → Nat → List Msg)
    (parseDate : String → Option Int) (beforeMessage : Option String)
    (a : String) (T : Int) (maxArg : Nat) :
    defaultSummarize = true ∧
    (∀ m : Msg, summarizeMessage m =
      { id := m.id, personEmail := m.personEmail, personId := m.personId,
        created := m.created, text := m.text, parentId := m.parentId,
        roomType := m.roomType }) ∧
    executeFunction fetchBatch parseDate beforeMessage none maxArg true
      = (ExecResult.plain ((fetchBatch beforeMessage maxArg).map
          (fun m => Item.summary (summarizeMessage m))), [beforeMessage]) ∧
    executeFunction fetchBatch parseDate beforeMessage none maxArg false
      = (ExecResult.plain ((fetchBatch beforeMessage maxArg).map Item.full),
         [beforeMessage]) ∧
    (a ≠ "" → parseDate a = some T →
      ∃ (L : List Msg) (cs : List (Option String)),
        executeFunction fetchBatch parseDate beforeMessage (some a) maxArg true
          = (ExecResult.filtered
              { items := L.map (fun m => Item.summary (summarizeMessage m)),
                count := L.length, filtered := true, afterFilter := a }, cs) ∧
        executeFunction fetchBatch parseDate beforeMessage (some a) maxArg false
          = (ExecResult.filtered
              { items := L.map Item.full, count := L.length, filtered := true,
                afterFilter := a }, cs)) := by
  refine ⟨rfl, fun m => rfl, by simp [executeFunction, itemize], by simp [executeFunction, itemize], ?_⟩
  intro ha hp
  refine ⟨(if maxArg ≠ 0
            then (collectLoop fetchBatch T maxArg maxIterations beforeMessage [] []).1.take maxArg
            else (collectLoop fetchBatch T maxArg maxIterations beforeMessage [] []).1),
          (collectLoop fetchBatch T maxArg maxIterations beforeMessage [] []).2, ?_, ?_⟩ <;>
    simp [executeFunction, ha, hp, itemize]

/-- Witness for C10 on the one-message transport. -/
theorem c10_summarize_shape_witness :
    defaultSummarize = true ∧
    (∀ m : Msg, summarizeMessage m =
      { id := m.id, personEmail := m.personEmail, personId := m.personId,
        created := m.created, text := m.text, parentId := m.parentId,
        roomType := m.roomType }) ∧
    executeFunction fbOne parseDateAt0 none none 50 true
      = (ExecResult.plain ((fbOne none 50).map
          (fun m => Item.summary (summarizeMessage m))), [none]) ∧
    executeFunction fbOne parseDateAt0 none none 50 false
      = (ExecResult.plain ((fbOne none 50).map Item.full), [none]) ∧
    (("t0" : String) ≠ "" → parseDateAt0 "t0" = some 0 →
      ∃ (L : List Msg) (cs : List (Option String)),
        executeFunction fbOne parseDateAt0 none (some "t0") 50 true
          = (ExecResult.filtered
              { items := L.map (fun m => Item.summary (summarizeMessage m)),
                count := L.length, filtered := true, afterFilter := "t0" }, cs) ∧
        executeFunction fbOne parseDateAt0 none (some "t0") 50 false
          = (ExecResult.filtered
              { items := L.map Item.full, count := L.length, filtered := true,
                afterFilter := "t0" }, cs)) :=
  c10_summarize_shape fbOne parseDateAt0 none "t0" 0 50

/-- C3 (amended): when `after` is specified and parses, the result of
the listing operation is the record `{items, count, filtered,
afterFilter}` with `filtered` constantly true, `afterFilter` echoing
the `after` argument and `count` the number of returned items; the
code (list-messages.js lines 133-138) reports no `truncatedByMax`
flag. -/
theorem c3_result_shape (fetchBatch : Option String → Nat → List Msg)
    (parseDate : String → Option Int) (beforeMessage : Option String)
    (a : String) (T : Int) (maxArg : Nat) (summarize : Bool)
    (ha : a ≠ "") (hp : parseDate a = some T) :
    ∃ (r : FilteredResult) (cs : List (Option String)),
      executeFunction fetchBatch parseDate beforeMessage (some a) maxArg summarize
        = (ExecResult.filtered r, cs) ∧
      r.filtered = true ∧ r.afterFilter = a ∧ r.count = r.items.length := by
  simp only [executeFunction, if_neg ha, hp]
  exact ⟨_, _, rfl, rfl, rfl, by simp [itemize_length]⟩

/-- Witness for C3 (amended) on the one-message transport. -/
theorem c3_result_shape_witness :
    ∃ (r : FilteredResult) (cs : List (Option String)),
      executeFunction fbOne parseDateAt0 none (some "t0") 10 true
        = (ExecResult.filtered r, cs) ∧
      r.filtered = true ∧ r.afterFilter = "t0" ∧ r.count = r.items.length :=
  c3_result_shape fbOne parseDateAt0 none "t0" 0 10 true (by decide) rfl

/-- Counterexample for C3 as stated: the result record produced by the
code for a run in which the max limit (10) was NOT hit (only 1 item
was collected) is `{items, count := 1, filtered := true, afterFilter}`
— the record type `FilteredResult`, the embedding of lines 133-138,
has no `truncatedByMax` field, and its only Boolean field, `filtered`,
is true even though no truncation by max occurred, so the result
carries no Boolean that is true iff truncation by max happened. -/
theorem c3_truncatedByMax_cex :
    executeFunction fbOne parseDateAt0 none (some "t0") 10 true
      = (ExecResult.filtered
          { items := [Item.summary (summarizeMessage msgA)], count := 1,
            filtered := true, afterFilter := "t0" }, [none]) ∧
    (1 : Nat) < 10 := by
  exact ⟨rfl, by decide⟩

/-- C9: `initializeAuth` selects the auth mode by first-match
priority: a (truthy) static token selects `static` with the Bearer
prefix stripped; else the auto-refresh flag (the exact string "true")
selects `auto-refresh`, failing fast with the platform-unsupported
error off macOS; else present OAuth client credentials select `oauth`;
else it fails with the no-auth-configured error. -/
theorem c9_initializeAuth_priority (env : AuthFacade.AuthEnv)
    (tokA tokO : Except Unit String) (s t : String) :
    (env.staticToken = some s → s ≠ "" →
      AuthFacade.initializeAuth env tokA tokO
        = Except.ok (AuthFacade.AuthMode.static, AuthFacade.stripBearer s)) ∧
    (AuthFacade.staticAbsent env → env.autoRefreshVar = some "true" →
      env.platform ≠ "darwin" →
      AuthFacade.initializeAuth env tokA tokO
        = Except.error AuthFacade.AuthInitError.platformUnsupported) ∧
    (AuthFacade.staticAbsent env → env.autoRefreshVar = some "true" →
      env.platform = "darwin" → tokA = Except.ok t →
      AuthFacade.initializeAuth env tokA tokO
        = Except.ok (AuthFacade.AuthMode.autoRefresh, t)) ∧
    (AuthFacade.staticAbsent env → env.autoRefreshVar ≠ some "true" →
      env.hasOAuthCreds = true → tokO = Except.ok t →
      AuthFacade.initializeAuth env tokA tokO
        = Except.ok (AuthFacade.AuthMode.oauth, t)) ∧
    (AuthFacade.staticAbsent env → env.autoRefreshVar ≠ some "true" →
      env.hasOAuthCreds = false →
      AuthFacade.initializeAuth env tokA tokO
        = Except.error AuthFacade.AuthInitError.noAuthConfigured) := by
  refine ⟨?_, ?_, ?_, ?_, ?_⟩
  · intro hs hne
    simp [AuthFacade.initializeAuth, hs, hne]
  · rintro (h | h) hflag hplat <;>
      simp [AuthFacade.initializeAuth, AuthFacade.initializeAuthNonStatic, h, hflag, hplat]
  · rintro (h | h) hflag hplat htok <;>
      simp [AuthFacade.initializeAuth, AuthFacade.initializeAuthNonStatic, h, hflag, hplat, htok]
  · rintro (h | h) hflag hoauth htok <;>
      simp [AuthFacade.initializeAuth, AuthFacade.initializeAuthNonStatic, h, hflag, hoauth, htok]
  · rintro (h | h) hflag hoauth <;>
      simp [AuthFacade.initializeAuth, AuthFacade.initializeAuthNonStatic, h, hflag, hoauth]

/-- Witness for C9: each of the five branches evaluated on a concrete
environment. -/
theorem c9_initializeAuth_priority_witness :
    AuthFacade.initializeAuth envStatic (Except.ok "a") (Except.ok "o")
      = Except.ok (AuthFacade.AuthMode.static, AuthFacade.stripBearer "Bearer tok") ∧
    AuthFacade.initializeAuth envAutoBad (Except.ok "a") (Except.ok "o")
      = Except.error AuthFacade.AuthInitError.platformUnsupported ∧
    AuthFacade.initializeAuth envAutoMac (Except.ok "a") (Except.ok "o")
      = Except.ok (AuthFacade.AuthMode.autoRefresh, "a") ∧
    AuthFacade.initializeAuth envOAuth (Except.ok "a") (Except.ok "o")
      = Except.ok (AuthFacade.AuthMode.oauth, "o") ∧
    AuthFacade.initializeAuth envNone (Except.ok "a") (Except.ok "o")
      = Except.error AuthFacade.AuthInitError.noAuthConfigured :=
  ⟨(c9_initializeAuth_priority envStatic (Except.ok "a") (Except.ok "o")
      "Bearer tok" "a").1 rfl (by decide),
   (c9_initializeAuth_priority envAutoBad (Except.ok "a") (Except.ok "o")
      "" "a").2.1 (Or.inl rfl) rfl (by decide),
   (c9_initializeAuth_priority envAutoMac (Except.ok "a") (Except.ok "o")
      "" "a").2.2.1 (Or.inl rfl) rfl rfl rfl,
   (c9_initializeAuth_priority envOAuth (Except.ok "a") (Except.ok "o")
      "" "o").2.2.2.1 (Or.inl rfl) (by decide) rfl rfl,
   (c9_initializeAuth_priority envNone (Except.ok "a") (Except.ok "o")
      "" "o").2.2.2.2 (Or.inl rfl) (by decide) rfl⟩

end WebexMCP
